import Mathlib

/-!
Shallow embedding of `src/runtime/src/bin/calibration.rs` (servo end-stop
calibration) and proofs about it.

Machine integers are modelled as `Int`/`Nat`.  The servo positions
(`current_location`) are signed encoder readings; boundary readings lie in
`[0, 4095]`.  Drive current is computed by the program as
`current_current as f32 * 6.5 / 100.0`; here it is modelled in exact
rational arithmetic (see `currentX200`).
-/

namespace Calib

/-! ## Constants (lines 10-19 of calibration.rs) -/

/-- Line 10: `CURRENT_THRESHOLD: f32 = 500.0`, in mA. -/
def CURRENT_THRESHOLD : Nat := 500

def CALIBRATION_SPEED : Nat := 250

def MIN_SPEED : Nat := 10

def SERVO_ADDR_EEPROM_WRITE : Nat := 0x37

def SERVO_ADDR_POSITION_CORRECTION : Nat := 0x1F

def SERVO_ADDR_MIN_ANGLE : Nat := 0x09

def SERVO_ADDR_MAX_ANGLE : Nat := 0x0B

def SERVO_ADDR_OPERATION_MODE : Nat := 0x21

def SERVO_ADDR_TARGET_POSITION : Nat := 0x2A

/-! ## Range computation (lines 140-156)

`normalizeRange` embeds lines 140-145: `min_angle = max_backward`,
`max_angle = max_forward`, and `max_angle += 4096` when
`max_angle <= min_angle`. -/

def normalizeRange (max_forward max_backward : Int) : Int × Int :=
  let min_angle := max_backward
  let max_angle := max_forward
  if max_angle ≤ min_angle then (min_angle, max_angle + 4096)
  else (min_angle, max_angle)

/-- Line 147: `(max_angle - min_angle) / 2`.  In the program the dividend is
nonnegative (it runs after normalization, where `max_angle > min_angle`),
so Rust's truncating division and Lean's `Int` division agree on every
reachable input. -/
def centerDistance (min_angle max_angle : Int) : Int :=
  (max_angle - min_angle) / 2

/-- Line 149: `min_angle + center_distance - 2048`. -/
def offsetOf (min_angle max_angle : Int) : Int :=
  min_angle + centerDistance min_angle max_angle - 2048

/-- `offset & 0x7FF` on a two's-complement machine integer: the low 11 bits,
i.e. the nonnegative residue of `offset` mod `2^11`.  (Lean's `%` on `Int`
already yields the representative in `[0, 2048)`.) -/
def low11 (offset : Int) : Nat := (offset % 2048).toNat

/-- Lines 152-156: the 12-bit value written to the position-correction
register: `(offset & 0x7FF) | 0x800` when `offset < 0`, else
`offset & 0x7FF`. -/
def offsetValue (offset : Int) : Nat :=
  if offset < 0 then low11 offset ||| 0x800 else low11 offset

/-- Decoder that reads the 12-bit value as sign-magnitude, following the
spec's words: bit 11 is a sign flag and bits 0-10 hold the magnitude.
This definition follows the SPEC, not the source; it exists to compare the
spec's description with what the source produces. -/
def decodeSignMagnitude (e : Nat) : Int :=
  if 2048 ≤ e then -((e % 2048 : Nat) : Int) else (e : Nat)

/-- Decoder that reads bit 11 as a flag and bits 0-10 as the low 11 bits of
a two's-complement value (subtracting `2048` when the flag is set).  This
is the decoder that actually inverts `offsetValue`. -/
def decodeLow11TwosComplement (e : Nat) : Int :=
  if 2048 ≤ e then ((e % 2048 : Nat) : Int) - 2048 else (e : Nat)

/-! ## Sweep model

The stateful part of `calibrate_servo` (lines 21-134, 159-213) and `main`
(lines 240-249).  Register operations, status reads, cancellation-flag
loads and sleeps are driven by an environment of oracles: `samples k` is
the result of the `k`-th `read_info` call, `running k` is the `k`-th load
of the shared `AtomicBool`, and `opOk k` tells whether the `k`-th register
operation succeeds.  Since the two polling loops in the source have no
timeout, they are modelled with an explicit fuel parameter; exhausting the
fuel yields a distinguished "still polling" outcome. -/

/-- One `ServoInfo` reading: `current_location` (12-bit encoder position)
and the raw `current_current` field. -/
structure StatusSample where
  current_location : Int
  current_current : Nat
deriving Repr, DecidableEq

/-- Line 53: `info.current_current as f32 * 6.5 / 100.0`, in exact
arithmetic scaled by 200: the exact value `raw * 6.5 / 100 = raw * 13 /
200` mA is represented by the integer `13 * raw` (the current in units of
1/200 mA), and a comparison against a threshold `t` mA becomes a
comparison against `200 * t`.  For raw values below `2^16` the `f32`
computation has relative error below `2^-20`, far smaller than the
distance from any reachable value of `raw * 6.5 / 100` to the thresholds
500 and 1000, so every threshold comparison in the program agrees with
this exact scaled value. -/
def currentX200 (s : StatusSample) : Nat := 13 * s.current_current

/-- Commands issued to the servo, in program order. -/
inductive Cmd where
  | disableReadout
  | enableReadout
  | setMode (id mode : Nat)
  | setSpeed (id speed : Nat) (direction : Int)
  | readInfo (id : Nat)
  | writeReg (id addr : Nat) (data : List Nat)
  | sleepMs (ms : Nat)
deriving Repr, DecidableEq

/-- Oracles driving one run. -/
structure Env where
  samples : Nat → StatusSample
  running : Nat → Bool
  opOk : Nat → Bool

/-- Counters and the command trace accumulated so far. -/
structure St where
  reads : Nat
  checks : Nat
  ops : Nat
  trace : List Cmd
deriving Repr, DecidableEq

def stInit : St := ⟨0, 0, 0, []⟩

def emit (st : St) (c : Cmd) : St := { st with trace := st.trace ++ [c] }

/-- Perform a fallible register operation: record the command and consume
one entry of the success oracle. -/
def regOp (env : Env) (st : St) (c : Cmd) : Bool × St :=
  (env.opOk st.ops, { emit st c with ops := st.ops + 1 })

/-- `servo.read_info(servo_id)`: consumes both an op-success entry and a
sample. -/
def readOp (env : Env) (st : St) (id : Nat) : Bool × StatusSample × St :=
  (env.opOk st.ops, env.samples st.reads,
    { emit st (.readInfo id) with ops := st.ops + 1, reads := st.reads + 1 })

/-- `running.load(Ordering::SeqCst)`. -/
def checkRunning (env : Env) (st : St) : Bool × St :=
  (env.running st.checks, { st with checks := st.checks + 1 })

def doSleep (st : St) (ms : Nat) : St := emit st (.sleepMs ms)

/-- Result of the fine re-approach loop (lines 73-83). -/
inductive FineRes where
  | out (st : St)
  | cancelled (st : St)
  | err (st : St)
  | fuelOut (st : St)
deriving Repr, DecidableEq

/-- Lines 73-83: `while current <= CURRENT_THRESHOLD * 2.0` — check the
cancellation flag (stop and return `Ok(())` when false), read a fresh
sample, update `current`, sleep 10 ms, repeat.  `current` enters holding
the value from the coarse sample that crossed the 500 mA threshold. -/
def fineLoop (env : Env) (id : Nat) : Nat → Nat → St → FineRes
  | 0, current, st =>
    if current ≤ 200 * (CURRENT_THRESHOLD * 2) then .fuelOut st else .out st
  | fuel + 1, current, st =>
    if current ≤ 200 * (CURRENT_THRESHOLD * 2) then
      let (r, st₁) := checkRunning env st
      if r then
        let (ok, s, st₂) := readOp env st₁ id
        if ok then fineLoop env id fuel (currentX200 s) (doSleep st₂ 10)
        else .err st₂
      else
        let (ok, st₂) := regOp env st₁ (.setSpeed id 0 1)
        if ok then .cancelled st₂ else .err st₂
    else .out st

/-- Result of one directional sweep: `done boundary exactPos st` carries the
recorded boundary (the read at line 100, after the final backoff) and the
position printed at line 90 (the read after the fine-approach stop and
settle, before the final backoff). -/
inductive SweepRes where
  | done (boundary exactPos : Int) (st : St)
  | cancelled (st : St)
  | err (st : St)
  | fuelOut (st : St)
deriving Repr, DecidableEq

/-- Lines 85-104 plus the recording at lines 106-118: after the fine
re-approach loop exits — stop at the exact position, settle 100 ms, read
the position printed as "Exact threshold position found" (`s₁`), back off
once more at calibration speed, stop and settle, then read again (`s₂`)
and record `s₂.current_location` as `max_forward`/`max_backward`. -/
def afterFine (env : Env) (id : Nat) (dir : Int) (st : St) : SweepRes :=
  let (ok, st) := regOp env st (.setSpeed id 0 dir)
  if ok then
    let st := doSleep st 100
    let (ok, s₁, st) := readOp env st id
    if ok then
      let (ok, st) := regOp env st (.setSpeed id CALIBRATION_SPEED (-dir))
      if ok then
        let st := doSleep st 100
        let (ok, st) := regOp env st (.setSpeed id 0 (-dir))
        if ok then
          let st := doSleep st 100
          let (ok, s₂, st) := readOp env st id
          if ok then .done s₂.current_location s₁.current_location st
          else .err st
        else .err st
      else .err st
    else .err st
  else .err st

/-- Lift a fine-loop result into a sweep result: a normal exit continues
with `afterFine` (lines 85-118); cancellation, error and fuel exhaustion
pass through. -/
def fineDispatch (env : Env) (id : Nat) (dir : Int) : FineRes → SweepRes
  | .out st => afterFine env id dir st
  | .cancelled st => .cancelled st
  | .err st => .err st
  | .fuelOut st => .fuelOut st

/-- Lines 56-120: the block entered when a coarse sample crosses the 500 mA
threshold — stop/settle, back off at calibration speed, stop/settle, slow
re-approach (`fineLoop` at `MIN_SPEED`), then `afterFine`. -/
def pinpoint (env : Env) (id : Nat) (dir : Int) (current : Nat) (ffuel : Nat)
    (st : St) : SweepRes :=
  let (ok, st) := regOp env st (.setSpeed id 0 dir)
  if ok then
    let st := doSleep st 100
    let (ok, st) := regOp env st (.setSpeed id CALIBRATION_SPEED (-dir))
    if ok then
      let st := doSleep st 100
      let (ok, st) := regOp env st (.setSpeed id 0 (-dir))
      if ok then
        let st := doSleep st 100
        let (ok, st) := regOp env st (.setSpeed id MIN_SPEED dir)
        if ok then fineDispatch env id dir (fineLoop env id ffuel current st)
        else .err st
      else .err st
    else .err st
  else .err st

/-- Lines 44-124: the coarse polling loop — check the cancellation flag
(stop and return `Ok(())` when false), read a sample, and either enter
`pinpoint` when its current exceeds 500 mA or sleep 10 ms and poll again. -/
def coarseLoop (env : Env) (id : Nat) (dir : Int) (ffuel : Nat) :
    Nat → St → SweepRes
  | 0, st => .fuelOut st
  | fuel + 1, st =>
    let (r, st₁) := checkRunning env st
    if r then
      let (ok, s, st₂) := readOp env st₁ id
      if ok then
        if currentX200 s > 200 * CURRENT_THRESHOLD then
          pinpoint env id dir (currentX200 s) ffuel st₂
        else
          coarseLoop env id dir ffuel fuel (doSleep st₂ 10)
      else .err st₂
    else
      let (ok, st₂) := regOp env st₁ (.setSpeed id 0 1)
      if ok then .cancelled st₂ else .err st₂

/-- One calibration pass (lines 42-124): command calibration speed in
`dir`, then run the coarse polling loop. -/
def sweepPass (env : Env) (id : Nat) (dir : Int) (cfuel ffuel : Nat)
    (st : St) : SweepRes :=
  let (ok, st) := regOp env st (.setSpeed id CALIBRATION_SPEED dir)
  if ok then coarseLoop env id dir ffuel cfuel st else .err st

/-- Result of the whole procedure.  `ok` is a completed run returning
`Ok(())`; `cancelled` is the early `return Ok(())` taken when a polling
check observes the cancellation flag false — also `Ok(())` in the source,
kept distinct here so the two return paths can be told apart; `err` is an
`Err` propagated by `?`; `fuelOut` means a polling loop was still running
when the modelling fuel ran out. -/
inductive Outcome where
  | ok
  | cancelled
  | err
  | fuelOut
deriving Repr, DecidableEq

/-- Line 192 / 217: `[(value & 0xFF) as u8, ((value >> 8) & 0xFF) as u8]`. -/
def leBytes (value : Nat) : List Nat := [value % 256, value / 256 % 256]

/-- Lines 216-219: `write_servo_memory`. -/
def write_servo_memory (env : Env) (st : St) (id addr value : Nat) :
    Bool × St :=
  regOp env st (.writeReg id addr (leBytes value))

/-- `min_angle as u16` / `max_angle as u16`: two's-complement truncation to
16 bits. -/
def toU16 (v : Int) : Nat := (v % 65536).toNat

/-- Lines 132-213: the tail of `calibrate_servo` after both passes — final
settling motion, range computation, EEPROM unlock/write/lock sequence,
re-centering, readout re-enable and the best-effort torque disable (whose
failure is swallowed, line 209-212). -/
def finishCalibration (env : Env) (id : Nat) (max_forward max_backward : Int)
    (st : St) : Outcome × St :=
  let (ok, st) := regOp env st (.setSpeed id CALIBRATION_SPEED 1)
  if ok then
    let st := doSleep st 100
    let (ok, st) := regOp env st (.setSpeed id 0 1)
    if ok then
      let mm := normalizeRange max_forward max_backward
      let offset_value := offsetValue (offsetOf mm.1 mm.2)
      let (ok, st) := regOp env st (.writeReg id SERVO_ADDR_EEPROM_WRITE [0])
      if ok then
        let st := doSleep st 10
        let (ok, st) := regOp env st (.writeReg id SERVO_ADDR_OPERATION_MODE [0])
        if ok then
          let st := doSleep st 10
          let (ok, st) := write_servo_memory env st id SERVO_ADDR_POSITION_CORRECTION offset_value
          if ok then
            let st := doSleep st 10
            let (ok, st) := write_servo_memory env st id SERVO_ADDR_MIN_ANGLE (toU16 mm.1)
            if ok then
              let st := doSleep st 10
              let (ok, st) := write_servo_memory env st id SERVO_ADDR_MAX_ANGLE (toU16 mm.2)
              if ok then
                let st := doSleep st 10
                let (ok, st) := regOp env st (.writeReg id SERVO_ADDR_EEPROM_WRITE [1])
                if ok then
                  let st := doSleep st 100
                  let (ok, st) := regOp env st (.writeReg id SERVO_ADDR_TARGET_POSITION (leBytes 2048))
                  if ok then
                    let st := doSleep st 1000
                    let (ok, st) := regOp env st .enableReadout
                    if ok then
                      let (_, st) := regOp env st (.writeReg id 0x28 [0])
                      (.ok, st)
                    else (.err, st)
                  else (.err, st)
                else (.err, st)
              else (.err, st)
            else (.err, st)
          else (.err, st)
        else (.err, st)
      else (.err, st)
    else (.err, st)
  else (.err, st)

/-- Dispatch on the backward (second) pass: a completed pass carries its
recorded boundary `bwd` (`max_backward`) into `finishCalibration`; the
cancelled early `return Ok(())`, an error and fuel exhaustion pass
through. -/
def afterSweep2 (env : Env) (id : Nat) (fwd : Int) : SweepRes → Outcome × St
  | .done bwd _ st => finishCalibration env id fwd bwd st
  | .cancelled st => (.cancelled, st)
  | .err st => (.err, st)
  | .fuelOut st => (.fuelOut, st)

/-- Dispatch on the forward (first) pass: a completed pass records `fwd`
(`max_forward`), pauses 500 ms (line 128) and runs the backward pass. -/
def afterSweep1 (env : Env) (id : Nat) (cfuel ffuel : Nat) :
    SweepRes → Outcome × St
  | .done fwd _ st =>
      afterSweep2 env id fwd (sweepPass env id (-1) cfuel ffuel (doSleep st 500))
  | .cancelled st => (.cancelled, st)
  | .err st => (.err, st)
  | .fuelOut st => (.fuelOut, st)

/-- Lines 21-213: `calibrate_servo` — disable readout, set continuous mode,
forward pass, 500 ms pause, backward pass, then `finishCalibration`.
`cfuel` bounds the iterations of each coarse loop, `ffuel` of each fine
loop. -/
def calibrate (env : Env) (id : Nat) (cfuel ffuel : Nat) : Outcome × St :=
  let (ok, st) := regOp env stInit .disableReadout
  if ok then
    let (ok, st) := regOp env st (.setMode id 1)
    if ok then afterSweep1 env id cfuel ffuel (sweepPass env id 1 cfuel ffuel st)
    else (.err, st)
  else (.err, st)

/-- Lines 240-249 of `main`: run `calibrate_servo`, then — only when the
cancellation flag is observed false — stop the servo and re-enable
readout (each with `?`), and finally return the stored result. -/
def runMain (env : Env) (id : Nat) (cfuel ffuel : Nat) : Outcome × St :=
  let (result, st) := calibrate env id cfuel ffuel
  let (r, st) := checkRunning env st
  if r then (result, st)
  else
    let (ok, st) := regOp env st (.setSpeed id 0 1)
    if ok then
      let (ok, st) := regOp env st .enableReadout
      if ok then (result, st) else (.err, st)
    else (.err, st)

/-- Is this command an EEPROM/register write (`servo.write`)? -/
def isWriteCmd : Cmd → Bool
  | .writeReg _ _ _ => true
  | _ => false

/-- Is this command a zero-speed (stop) command? -/
def isStopCmd : Cmd → Bool
  | .setSpeed _ speed _ => speed = 0
  | _ => false

/-! ## Trace and cancellation invariants -/

/-- No `servo.write` command occurs in the trace. -/
@[reducible] def noWrites (l : List Cmd) : Prop :=
  l.all (fun c => !isWriteCmd c) = true

/-- No zero-speed command occurs in the trace. -/
@[reducible] def noStops (l : List Cmd) : Prop :=
  l.all (fun c => !isStopCmd c) = true

/-- Every cancellation-flag load with index in `[a, b)` observed `true`. -/
def checksTrue (env : Env) (a b : Nat) : Prop :=
  ∀ k, a ≤ k → k < b → env.running k = true

/-- Invariant tying a fine-loop result to its entry state: non-cancelled
continuations observed only `true` at every flag load; a cancelled result
ends its trace with the zero-speed command; no branch adds a register
write; errors cannot occur when every register operation succeeds. -/
def FineInv (env : Env) (id : Nat) (st : St) : FineRes → Prop
  | .out st' => st.checks ≤ st'.checks ∧ checksTrue env st.checks st'.checks ∧
      (noWrites st.trace → noWrites st'.trace)
  | .fuelOut st' => st.checks ≤ st'.checks ∧ checksTrue env st.checks st'.checks ∧
      (noWrites st.trace → noWrites st'.trace)
  | .cancelled st' => (noWrites st.trace → noWrites st'.trace) ∧
      st'.trace.getLast? = some (.setSpeed id 0 1)
  | .err _ => False

/-- Invariant tying a sweep result to its entry state (same content as
`FineInv`). -/
def SweepInv (env : Env) (id : Nat) (st : St) : SweepRes → Prop
  | .done _ _ st' => st.checks ≤ st'.checks ∧ checksTrue env st.checks st'.checks ∧
      (noWrites st.trace → noWrites st'.trace)
  | .fuelOut st' => st.checks ≤ st'.checks ∧ checksTrue env st.checks st'.checks ∧
      (noWrites st.trace → noWrites st'.trace)
  | .cancelled st' => (noWrites st.trace → noWrites st'.trace) ∧
      st'.trace.getLast? = some (.setSpeed id 0 1)
  | .err _ => False

/-- Invariant of a whole `calibrate_servo` run: a non-cancelled,
non-erroring run observed `true` at every cancellation check it performed;
a cancelled run has a write-free trace ending in the zero-speed command;
errors cannot occur when every register operation succeeds. -/
def CalInv (env : Env) (id : Nat) : Outcome × St → Prop
  | (.ok, st') => checksTrue env 0 st'.checks
  | (.fuelOut, st') => checksTrue env 0 st'.checks
  | (.cancelled, st') => noWrites st'.trace ∧
      st'.trace.getLast? = some (.setSpeed id 0 1)
  | (.err, _) => False

/-! ## Concrete runs: counterexamples and witnesses -/

/-- Boundary recorded by a completed sweep. -/
def sweepBoundary : SweepRes → Option Int
  | .done b _ _ => some b
  | _ => none

/-- The printed "exact threshold position" of a completed sweep. -/
def sweepExactPos : SweepRes → Option Int
  | .done _ e _ => some e
  | _ => none

/-- Environment for C3: the triggering sample reads 1300 mA at position
100, the post-fine-stop read returns position 110, the post-backoff read
returns position 90; no cancellation, no operation failure. -/
def C3env : Env :=
  ⟨fun k => if k = 0 then ⟨100, 20000⟩ else if k = 1 then ⟨110, 0⟩ else ⟨90, 0⟩,
   fun _ => true, fun _ => true⟩

/-- Final state of the C3 sweep (obtained by evaluating the model). -/
def C3finalSt : St :=
  ⟨3, 1, 10,
   [.readInfo 1, .setSpeed 1 0 1, .sleepMs 100, .setSpeed 1 250 (-1),
    .sleepMs 100, .setSpeed 1 0 (-1), .sleepMs 100, .setSpeed 1 10 1,
    .setSpeed 1 0 1, .sleepMs 100, .readInfo 1, .setSpeed 1 250 (-1),
    .sleepMs 100, .setSpeed 1 0 (-1), .sleepMs 100, .readInfo 1]⟩

/-- Environment for C4: the fourth register operation (the first
`read_info` of the forward sweep) fails; the cancellation flag stays
`true` throughout. -/
def C4env : Env := ⟨fun _ => ⟨0, 0⟩, fun _ => true, fun k => !(k == 3)⟩

/-- Environment for C7: the cancellation flag is already `false` at the
first polling check; every register operation succeeds. -/
def C7env : Env := ⟨fun _ => ⟨0, 0⟩, fun _ => false, fun _ => true⟩

/-- Environment for C8: every sample reads `7676` raw, i.e. 498.94 mA,
below the 500 mA threshold; no cancellation, no failure. -/
def C8env : Env := ⟨fun _ => ⟨2048, 7676⟩, fun _ => true, fun _ => true⟩

/-- Environment for C9: every sample reads `15384` raw, i.e. 999.96 mA,
at most twice the threshold; no cancellation, no failure. -/
def C9env : Env := ⟨fun _ => ⟨0, 15384⟩, fun _ => true, fun _ => true⟩

/-- Environment for C10: the triggering sample reads 1300 mA — already
above twice the threshold. -/
def C10env : Env :=
  ⟨fun k => if k = 0 then ⟨100, 20000⟩ else if k = 1 then ⟨110, 0⟩ else ⟨50, 0⟩,
   fun _ => true, fun _ => true⟩

/-! ## Theorems -/

/-! ## Helper lemmas -/

theorem low11_lt (o : Int) : low11 o < 2048 := by
  unfold low11
  omega

theorem lor_0x800_eq_add (b : Nat) (hb : b < 2048) : b ||| 0x800 = 2048 + b := by
  have h := Nat.mul_add_lt_is_or (i := 11) (by omega : b < 2 ^ 11) 1
  simpa [Nat.lor_comm] using h.symm

theorem offsetValue_of_neg (o : Int) (h : o < 0) :
    offsetValue o = 2048 + low11 o := by
  unfold offsetValue
  rw [if_pos h, lor_0x800_eq_add _ (low11_lt o)]

/-! ## Claim theorems: pure arithmetic (C1, C2, C5, C6) -/

/-- C1 counterexample: at `offset = -398` the value the program writes is
`0xE72`, whose bits 0-10 hold `1650` (the two's-complement residue), not
the magnitude `398`; decoding it as sign-magnitude yields `-1650`, not
`-398`.  So the encoding is not sign-magnitude and the sign-magnitude
round-trip fails. -/
theorem C1_counterexample :
    offsetValue (-398) = 0xE72 ∧
    offsetValue (-398) % 2048 = 1650 ∧
    ¬ offsetValue (-398) % 2048 = 398 ∧
    decodeSignMagnitude (offsetValue (-398)) = -1650 ∧
    ¬ decodeSignMagnitude (offsetValue (-398)) = -398 := by
  refine ⟨?_, ?_, ?_, ?_, ?_⟩ <;> decide

/-- C1 (amended): for a negative offset the encoding keeps the low 11 bits
of the two's-complement representation (`offset mod 2048`), OR'd with
`0x800`; decoding bit 11 as a flag and bits 0-10 as a two's-complement
residue recovers every offset in `[-2048, 2047]`. -/
theorem C1_offset_roundtrip (o : Int) (h₁ : -2048 ≤ o) (h₂ : o ≤ 2047) :
    decodeLow11TwosComplement (offsetValue o) = o := by
  by_cases hneg : o < 0
  · rw [offsetValue_of_neg o hneg]
    unfold decodeLow11TwosComplement low11
    rw [if_pos (by omega)]
    omega
  · unfold offsetValue decodeLow11TwosComplement low11
    rw [if_neg hneg, if_neg (by omega)]
    omega

/-- Witness for `C1_offset_roundtrip` at `o = -398`. -/
theorem C1_offset_roundtrip_witness :
    (-2048 : Int) ≤ -398 ∧ (-398 : Int) ≤ 2047 ∧
    decodeLow11TwosComplement (offsetValue (-398)) = -398 :=
  ⟨by decide, by decide, C1_offset_roundtrip (-398) (by decide) (by decide)⟩

/-- C2 counterexample: with `min_angle = 100`, `max_angle = 3200` the
program computes `center_distance = 1550` and `offset = -398`, but the
encoding step produces `0xE72`, not the claimed `0x99E`. -/
theorem C2_counterexample :
    centerDistance 100 3200 = 1550 ∧
    offsetOf 100 3200 = -398 ∧
    offsetValue (offsetOf 100 3200) = 0xE72 ∧
    ¬ offsetValue (offsetOf 100 3200) = 0x99E := by
  refine ⟨?_, ?_, ?_, ?_⟩ <;> decide

/-- C2 (amended): for `min_angle = 100`, `max_angle = 3200` the range
computation yields `center_distance = 1550` and `offset = -398`, and the
encoding step produces the 12-bit value `0xE72`. -/
theorem C2_boundary_example :
    centerDistance 100 3200 = 1550 ∧
    offsetOf 100 3200 = -398 ∧
    offsetValue (offsetOf 100 3200) = 0xE72 := by
  refine ⟨?_, ?_, ?_⟩ <;> decide

/-- C5 counterexample: boundary readings `max_forward = 1`,
`max_backward = 4095` (both in `[0, 4095]`) normalize to the range
`(4095, 4097)` and give `offset = 2048`, outside `[-2048, 2047]`. -/
theorem C5_counterexample :
    (normalizeRange 1 4095).1 = 4095 ∧
    (normalizeRange 1 4095).2 = 4097 ∧
    offsetOf (normalizeRange 1 4095).1 (normalizeRange 1 4095).2 = 2048 ∧
    ¬ offsetOf (normalizeRange 1 4095).1 (normalizeRange 1 4095).2 ≤ 2047 := by
  refine ⟨?_, ?_, ?_, ?_⟩ <;> decide

/-- C5 (amended): for boundary readings in `[0, 4095]` the computed offset
(after wraparound normalization) lies in `[-2048, 4095]`; it can exceed
`2047` (see the counterexample), so the claimed upper bound `2047` is
wrong and `4095` is the tight one. -/
theorem C5_offset_bounds (f b : Int)
    (hf₁ : 0 ≤ f) (hf₂ : f ≤ 4095) (hb₁ : 0 ≤ b) (hb₂ : b ≤ 4095) :
    -2048 ≤ offsetOf (normalizeRange f b).1 (normalizeRange f b).2 ∧
    offsetOf (normalizeRange f b).1 (normalizeRange f b).2 ≤ 4095 := by
  by_cases hc : f ≤ b
  · simp only [normalizeRange, offsetOf, centerDistance, if_pos hc]
    omega
  · simp only [normalizeRange, offsetOf, centerDistance, if_neg hc]
    omega

/-- Witness for `C5_offset_bounds` at `f = 1`, `b = 4095`. -/
theorem C5_offset_bounds_witness :
    (0 : Int) ≤ 1 ∧ (1 : Int) ≤ 4095 ∧ (0 : Int) ≤ 4095 ∧ (4095 : Int) ≤ 4095 ∧
    (-2048 ≤ offsetOf (normalizeRange 1 4095).1 (normalizeRange 1 4095).2 ∧
      offsetOf (normalizeRange 1 4095).1 (normalizeRange 1 4095).2 ≤ 4095) :=
  ⟨by decide, by decide, by decide, by decide,
    C5_offset_bounds 1 4095 (by decide) (by decide) (by decide) (by decide)⟩

/-- C6 (confirmed): for boundary readings in `[0, 4095]`:
`min_angle = max_backward` always; if `max_backward < max_forward` then
`max_angle = max_forward` with no wraparound added; if
`max_forward ≤ max_backward` then `max_angle = max_forward + 4096`; and in
both cases `max_angle > min_angle` holds afterwards. -/
theorem C6_wraparound (f b : Int)
    (hf₁ : 0 ≤ f) (hf₂ : f ≤ 4095) (hb₁ : 0 ≤ b) (hb₂ : b ≤ 4095) :
    (normalizeRange f b).1 = b ∧
    (b < f → (normalizeRange f b).2 = f) ∧
    (f ≤ b → (normalizeRange f b).2 = f + 4096) ∧
    (normalizeRange f b).1 < (normalizeRange f b).2 := by
  refine ⟨?_, fun hlt => ?_, fun hle => ?_, ?_⟩ <;>
    by_cases hc : f ≤ b <;> simp [normalizeRange, hc] <;> omega

/-- Witness for `C6_wraparound` at the spec's wraparound example
`max_forward = 50`, `max_backward = 3900`. -/
theorem C6_wraparound_witness :
    (0 : Int) ≤ 50 ∧ (50 : Int) ≤ 4095 ∧ (0 : Int) ≤ 3900 ∧ (3900 : Int) ≤ 4095 ∧
    ((normalizeRange 50 3900).1 = 3900 ∧
      ((3900 : Int) < 50 → (normalizeRange 50 3900).2 = 50) ∧
      ((50 : Int) ≤ 3900 → (normalizeRange 50 3900).2 = 50 + 4096) ∧
      (normalizeRange 50 3900).1 < (normalizeRange 50 3900).2) :=
  ⟨by decide, by decide, by decide, by decide,
    C6_wraparound 50 3900 (by decide) (by decide) (by decide) (by decide)⟩

theorem checksTrue_refl (env : Env) (a : Nat) : checksTrue env a a :=
  fun _ h₁ h₂ => absurd h₂ (by omega)

theorem checksTrue_trans (env : Env) (a b c : Nat)
    (h₁ : checksTrue env a b) (h₂ : checksTrue env b c) :
    checksTrue env a c := by
  intro k hak hkc
  by_cases hkb : k < b
  · exact h₁ k hak hkb
  · exact h₂ k (by omega) hkc

theorem noWrites_append_one (l : List Cmd) (c : Cmd) (hl : noWrites l)
    (hc : isWriteCmd c = false) : noWrites (l ++ [c]) := by
  simp only [noWrites, List.all_append, List.all_cons, List.all_nil,
    Bool.and_eq_true, Bool.not_eq_true'] at *
  exact ⟨hl, by simp [hc]⟩

/-- Shift a fine-loop invariant across one read-poll step. -/
theorem FineInv_step (env : Env) (id : Nat) (st₀ st₁ : St) (r : FineRes)
    (hchk : st₁.checks = st₀.checks + 1)
    (hrun₁ : env.running st₀.checks = true)
    (htr : noWrites st₀.trace → noWrites st₁.trace)
    (h : FineInv env id st₁ r) : FineInv env id st₀ r := by
  cases r with
  | out st' =>
    obtain ⟨h₁, h₂, h₃⟩ := h
    refine ⟨by omega, ?_, fun hw => h₃ (htr hw)⟩
    intro k hk₁ hk₂
    by_cases hk : k = st₀.checks
    · exact hk ▸ hrun₁
    · exact h₂ k (by omega) hk₂
  | fuelOut st' =>
    obtain ⟨h₁, h₂, h₃⟩ := h
    refine ⟨by omega, ?_, fun hw => h₃ (htr hw)⟩
    intro k hk₁ hk₂
    by_cases hk : k = st₀.checks
    · exact hk ▸ hrun₁
    · exact h₂ k (by omega) hk₂
  | cancelled st' =>
    exact ⟨fun hw => h.1 (htr hw), h.2⟩
  | err st' => exact h

/-- The fine re-approach loop satisfies `FineInv` whenever every register
operation succeeds. -/
theorem fineLoop_inv (env : Env) (id : Nat) (hops : ∀ k, env.opOk k = true) :
    ∀ fuel c st, FineInv env id st (fineLoop env id fuel c st) := by
  intro fuel
  induction fuel with
  | zero =>
    intro c st
    by_cases hc : c ≤ 200 * (CURRENT_THRESHOLD * 2) <;>
      simp [fineLoop, hc, FineInv, checksTrue_refl]
  | succ n ih =>
    intro c st
    by_cases hc : c ≤ 200 * (CURRENT_THRESHOLD * 2)
    · rcases hr : env.running st.checks with _ | _
      · simp only [fineLoop, if_pos hc, checkRunning, hr, Bool.false_eq_true,
          if_false, regOp, hops, if_true, FineInv, emit]
        constructor
        · intro hw
          exact noWrites_append_one _ _ hw rfl
        · simp
      · simp only [fineLoop, if_pos hc, checkRunning, hr, if_true, readOp,
          hops, emit, doSleep]
        refine FineInv_step env id st _ _ (by simp) hr ?_ (ih _ _)
        intro hw
        exact noWrites_append_one _ _ (noWrites_append_one _ _ hw rfl) rfl
    · simp [fineLoop, hc, FineInv, checksTrue_refl]

theorem noWrites_append (l₁ l₂ : List Cmd) (h₁ : noWrites l₁)
    (h₂ : noWrites l₂) : noWrites (l₁ ++ l₂) := by
  simp only [noWrites, List.all_append, Bool.and_eq_true] at *
  exact ⟨h₁, h₂⟩

/-- When the current entering the fine loop already exceeds twice the
threshold, the loop exits at once with the state untouched. -/
theorem fineLoop_out_of_gt (env : Env) (id : Nat) (fuel : Nat) (c : Nat)
    (st : St) (hc : 200 * (CURRENT_THRESHOLD * 2) < c) :
    fineLoop env id fuel c st = .out st := by
  cases fuel <;> simp [fineLoop, not_le.mpr hc]

/-- With every register operation succeeding, `afterFine` completes and
records as boundary the position of the very last read — the one taken
after the final backoff — while the pre-backoff read becomes only the
printed "exact" position. -/
theorem afterFine_done (env : Env) (id : Nat) (dir : Int) (st : St)
    (hops : ∀ k, env.opOk k = true) :
    ∃ st', afterFine env id dir st =
        .done (env.samples (st.reads + 1)).current_location
          (env.samples st.reads).current_location st' ∧
      st'.reads = st.reads + 2 ∧ st'.checks = st.checks ∧
      (noWrites st.trace → noWrites st'.trace) := by
  simp only [afterFine, regOp, readOp, doSleep, emit, hops, if_true]
  refine ⟨_, rfl, by simp, by simp, fun h => ?_⟩
  simp only [List.append_assoc]
  exact noWrites_append _ _ h (by simp [noWrites, isWriteCmd])

/-- Shift a sweep invariant across a prefix whose flag loads all observed
`true`. -/
theorem SweepInv_comp (env : Env) (id : Nat) (st₀ st₁ : St) (r : SweepRes)
    (hle : st₀.checks ≤ st₁.checks)
    (hmid : checksTrue env st₀.checks st₁.checks)
    (htr : noWrites st₀.trace → noWrites st₁.trace)
    (h : SweepInv env id st₁ r) : SweepInv env id st₀ r := by
  cases r with
  | done b e st' =>
    obtain ⟨h₁, h₂, h₃⟩ := h
    exact ⟨by omega, checksTrue_trans env _ _ _ hmid h₂, fun hw => h₃ (htr hw)⟩
  | fuelOut st' =>
    obtain ⟨h₁, h₂, h₃⟩ := h
    exact ⟨by omega, checksTrue_trans env _ _ _ hmid h₂, fun hw => h₃ (htr hw)⟩
  | cancelled st' => exact ⟨fun hw => h.1 (htr hw), h.2⟩
  | err st' => exact h

/-- A `FineInv` result dispatched through `fineDispatch` yields `SweepInv`,
relative to any earlier state `st` whose checks counter agrees with the
fine-loop entry state `S` and whose trace `S` extends without writes. -/
theorem fineDispatch_inv (env : Env) (id : Nat) (dir : Int) (st S : St)
    (r : FineRes) (hops : ∀ k, env.opOk k = true)
    (hSc : S.checks = st.checks)
    (hpre : noWrites st.trace → noWrites S.trace)
    (hf : FineInv env id S r) :
    SweepInv env id st (fineDispatch env id dir r) := by
  cases r with
  | out st₁ =>
    obtain ⟨hf₁, hf₂, hf₃⟩ := hf
    rw [hSc] at hf₁ hf₂
    show SweepInv env id st (afterFine env id dir st₁)
    obtain ⟨st₂, heq, h₂r, h₂c, h₂w⟩ := afterFine_done env id dir st₁ hops
    rw [heq]
    refine ⟨by omega, ?_, fun hw => h₂w (hf₃ (hpre hw))⟩
    intro k hk₁ hk₂
    exact hf₂ k hk₁ (by omega)
  | cancelled st₁ =>
    exact ⟨fun hw => hf.1 (hpre hw), hf.2⟩
  | err st₁ => exact hf.elim
  | fuelOut st₁ =>
    obtain ⟨hf₁, hf₂, hf₃⟩ := hf
    rw [hSc] at hf₁ hf₂
    exact ⟨hf₁, hf₂, fun hw => hf₃ (hpre hw)⟩

/-- `pinpoint` satisfies the sweep invariant whenever every register
operation succeeds. -/
theorem pinpoint_inv (env : Env) (id : Nat) (dir : Int) (c : Nat)
    (ffuel : Nat) (st : St) (hops : ∀ k, env.opOk k = true) :
    SweepInv env id st (pinpoint env id dir c ffuel st) := by
  simp only [pinpoint, regOp, doSleep, emit, hops, if_true]
  refine fineDispatch_inv env id dir st _ _ hops ?_ ?_
    (fineLoop_inv env id hops ffuel c _)
  · rfl
  · intro h
    exact noWrites_append_one _ _ (noWrites_append_one _ _ (noWrites_append_one _ _
      (noWrites_append_one _ _ (noWrites_append_one _ _ (noWrites_append_one _ _
        (noWrites_append_one _ _ h rfl) rfl) rfl) rfl) rfl) rfl) rfl

/-- The coarse polling loop satisfies the sweep invariant whenever every
register operation succeeds. -/
theorem coarseLoop_inv (env : Env) (id : Nat) (dir : Int) (ffuel : Nat)
    (hops : ∀ k, env.opOk k = true) :
    ∀ cfuel st, SweepInv env id st (coarseLoop env id dir ffuel cfuel st) := by
  intro cfuel
  induction cfuel with
  | zero =>
    intro st
    exact ⟨le_refl _, checksTrue_refl env _, fun h => h⟩
  | succ n ih =>
    intro st
    rcases hr : env.running st.checks with _ | _
    · simp only [coarseLoop, checkRunning, hr, Bool.false_eq_true, if_false,
        regOp, hops, emit, if_true]
      refine ⟨fun hw => noWrites_append_one _ _ hw rfl, ?_⟩
      simp
    · simp only [coarseLoop, checkRunning, hr, if_true, readOp, hops, emit,
        doSleep]
      by_cases hcur : currentX200 (env.samples st.reads) > 200 * CURRENT_THRESHOLD
      · rw [if_pos hcur]
        refine SweepInv_comp env id st _ _ (Nat.le_succ st.checks) ?_ ?_
          (pinpoint_inv env id dir _ ffuel _ hops)
        · intro k hk₁ hk₂
          have hk : k = st.checks := by
            simp at hk₂
            omega
          rw [hk]
          exact hr
        · intro h
          exact noWrites_append_one _ _ h rfl
      · rw [if_neg hcur]
        refine SweepInv_comp env id st _ _ (Nat.le_succ st.checks) ?_ ?_ (ih _)
        · intro k hk₁ hk₂
          have hk : k = st.checks := by
            simp at hk₂
            omega
          rw [hk]
          exact hr
        · intro h
          exact noWrites_append_one _ _ (noWrites_append_one _ _ h rfl) rfl

/-- One sweep pass satisfies the sweep invariant whenever every register
operation succeeds. -/
theorem sweepPass_inv (env : Env) (id : Nat) (dir : Int) (cfuel ffuel : Nat)
    (st : St) (hops : ∀ k, env.opOk k = true) :
    SweepInv env id st (sweepPass env id dir cfuel ffuel st) := by
  simp only [sweepPass, regOp, emit, hops, if_true]
  refine SweepInv_comp env id st _ _ ?_ ?_ ?_
    (coarseLoop_inv env id dir ffuel hops cfuel _)
  · exact le_refl _
  · exact checksTrue_refl env _
  · intro h
    exact noWrites_append_one _ _ h rfl

/-- With every register operation succeeding, the EEPROM/teardown tail of
the procedure completes with outcome `ok` and performs no further
cancellation checks. -/
theorem finishCalibration_ok (env : Env) (id : Nat) (f b : Int) (st : St)
    (hops : ∀ k, env.opOk k = true) :
    (finishCalibration env id f b st).1 = .ok ∧
    (finishCalibration env id f b st).2.checks = st.checks := by
  simp [finishCalibration, regOp, write_servo_memory, doSleep, emit, hops]

theorem afterSweep2_inv (env : Env) (id : Nat) (fwd : Int) (S₁ : St)
    (r : SweepRes) (hops : ∀ k, env.opOk k = true)
    (hchk : checksTrue env 0 S₁.checks) (hw : noWrites S₁.trace)
    (hr : SweepInv env id S₁ r) :
    CalInv env id (afterSweep2 env id fwd r) := by
  cases r with
  | done bwd e st =>
    obtain ⟨h₁, h₂, h₃⟩ := hr
    obtain ⟨hok, hchk'⟩ := finishCalibration_ok env id fwd bwd st hops
    rcases hfin : finishCalibration env id fwd bwd st with ⟨o, st₂⟩
    rw [hfin] at hok hchk'
    have ho : o = Outcome.ok := hok
    have hc₂ : st₂.checks = st.checks := hchk'
    show CalInv env id (finishCalibration env id fwd bwd st)
    rw [hfin, ho]
    show checksTrue env 0 st₂.checks
    rw [hc₂]
    exact checksTrue_trans env 0 S₁.checks st.checks hchk h₂
  | cancelled st => exact ⟨hr.1 hw, hr.2⟩
  | err st => exact hr.elim
  | fuelOut st => exact checksTrue_trans env _ _ _ hchk hr.2.1

theorem afterSweep1_inv (env : Env) (id : Nat) (cfuel ffuel : Nat) (S₀ : St)
    (r : SweepRes) (hops : ∀ k, env.opOk k = true)
    (hchk : checksTrue env 0 S₀.checks) (hw : noWrites S₀.trace)
    (hr : SweepInv env id S₀ r) :
    CalInv env id (afterSweep1 env id cfuel ffuel r) := by
  cases r with
  | done fwd e st =>
    obtain ⟨h₁, h₂, h₃⟩ := hr
    refine afterSweep2_inv env id fwd (doSleep st 500) _ hops ?_ ?_
      (sweepPass_inv env id (-1) cfuel ffuel (doSleep st 500) hops)
    · exact checksTrue_trans env 0 S₀.checks st.checks hchk h₂
    · exact noWrites_append_one _ _ (h₃ hw) rfl
  | cancelled st => exact ⟨hr.1 hw, hr.2⟩
  | err st => exact hr.elim
  | fuelOut st => exact checksTrue_trans env _ _ _ hchk hr.2.1

/-- A whole `calibrate_servo` run satisfies `CalInv` whenever every
register operation succeeds. -/
theorem calibrate_inv (env : Env) (id : Nat) (cfuel ffuel : Nat)
    (hops : ∀ k, env.opOk k = true) :
    CalInv env id (calibrate env id cfuel ffuel) := by
  simp only [calibrate, regOp, emit, stInit, hops, if_true]
  refine afterSweep1_inv env id cfuel ffuel _ _ hops (checksTrue_refl env 0) ?_
    (sweepPass_inv env id 1 cfuel ffuel _ hops)
  simp [noWrites, isWriteCmd]

theorem noStops_append_one (l : List Cmd) (c : Cmd) (hl : noStops l)
    (hc : isStopCmd c = false) : noStops (l ++ [c]) := by
  simp only [noStops, List.all_append, List.all_cons, List.all_nil,
    Bool.and_eq_true, Bool.not_eq_true'] at *
  exact ⟨hl, by simp [hc]⟩

/-- The fine loop never decreases the read counter on a normal exit. -/
theorem fineLoop_out_reads_le (env : Env) (id : Nat) :
    ∀ fuel c st st', fineLoop env id fuel c st = .out st' →
      st.reads ≤ st'.reads := by
  intro fuel
  induction fuel with
  | zero =>
    intro c st st' h
    by_cases hc : c ≤ 200 * (CURRENT_THRESHOLD * 2) <;> simp [fineLoop, hc] at h
    subst h
    exact le_refl _
  | succ n ih =>
    intro c st st' h
    by_cases hc : c ≤ 200 * (CURRENT_THRESHOLD * 2)
    · rcases hr : env.running st.checks with _ | _
      · rcases ho : env.opOk st.ops with _ | _ <;>
          simp [fineLoop, hc, checkRunning, hr, regOp, ho] at h
      · rcases ho : env.opOk st.ops with _ | _
        · simp only [fineLoop, if_pos hc, checkRunning, hr, if_true, readOp,
            regOp, ho, emit, doSleep, Bool.false_eq_true, if_false] at h
          simp at h
        · simp only [fineLoop, if_pos hc, checkRunning, hr, if_true, readOp,
            regOp, ho, emit, doSleep] at h
          have := ih _ _ _ h
          simp at this
          omega
    · simp [fineLoop, hc] at h
      subst h
      exact le_refl _

/-- A `done` sweep result can only come out of `fineDispatch` through a
normal fine-loop exit followed by `afterFine`. -/
theorem fineDispatch_done (env : Env) (id : Nat) (dir : Int) (r : FineRes)
    (b e : Int) (st' : St) (h : fineDispatch env id dir r = .done b e st') :
    ∃ stf, r = .out stf ∧ afterFine env id dir stf = .done b e st' := by
  cases r with
  | out stf => exact ⟨stf, rfl, h⟩
  | cancelled stf => simp [fineDispatch] at h
  | err stf => simp [fineDispatch] at h
  | fuelOut stf => simp [fineDispatch] at h

/-- In a completed `pinpoint` (all register operations succeeding), the
recorded boundary is the position of the very last read of the sweep and
the printed "exact" position is the second-to-last read. -/
theorem pinpoint_done_char (env : Env) (id : Nat) (dir : Int) (c : Nat)
    (ffuel : Nat) (st : St) (b e : Int) (st' : St)
    (hops : ∀ k, env.opOk k = true)
    (h : pinpoint env id dir c ffuel st = .done b e st') :
    2 ≤ st'.reads ∧
    b = (env.samples (st'.reads - 1)).current_location ∧
    e = (env.samples (st'.reads - 2)).current_location := by
  simp only [pinpoint, regOp, doSleep, emit, hops, if_true] at h
  obtain ⟨stf, hf, haf⟩ := fineDispatch_done env id dir _ b e st' h
  obtain ⟨st₂, heq, h₂r, h₂c, h₂w⟩ := afterFine_done env id dir stf hops
  rw [heq] at haf
  cases haf
  refine ⟨by omega, ?_, ?_⟩ <;> rw [h₂r] <;> norm_num

/-- In a completed coarse sweep (all register operations succeeding), the
recorded boundary is the last read and the printed "exact" position the
second-to-last. -/
theorem coarseLoop_done_char (env : Env) (id : Nat) (dir : Int) (ffuel : Nat)
    (hops : ∀ k, env.opOk k = true) :
    ∀ cfuel st b e st', coarseLoop env id dir ffuel cfuel st = .done b e st' →
      2 ≤ st'.reads ∧
      b = (env.samples (st'.reads - 1)).current_location ∧
      e = (env.samples (st'.reads - 2)).current_location := by
  intro cfuel
  induction cfuel with
  | zero =>
    intro st b e st' h
    simp [coarseLoop] at h
  | succ n ih =>
    intro st b e st' h
    rcases hr : env.running st.checks with _ | _
    · simp only [coarseLoop, checkRunning, hr, Bool.false_eq_true, if_false,
        regOp, hops, emit, if_true] at h
      simp at h
    · simp only [coarseLoop, checkRunning, hr, if_true, readOp, hops, emit,
        doSleep] at h
      by_cases hcur : currentX200 (env.samples st.reads) > 200 * CURRENT_THRESHOLD
      · rw [if_pos hcur] at h
        exact pinpoint_done_char env id dir _ ffuel _ b e st' hops h
      · rw [if_neg hcur] at h
        exact ih _ b e st' h

/-! ## Claim theorems: the sweep state machine (C3, C4, C7, C8, C9, C10) -/

/-- C3 (amended): in every completed sweep (all register operations
succeeding), the recorded `boundaryPosition` is the position returned by
the sweep's final status read — the one taken after the final backoff —
not the read taken after the fine-approach stop and settle, which is the
second-to-last read and is only printed. -/
theorem C3_boundary_is_post_backoff_read (env : Env) (id : Nat) (dir : Int)
    (ffuel cfuel : Nat) (st : St) (b e : Int) (st' : St)
    (hops : ∀ k, env.opOk k = true)
    (h : coarseLoop env id dir ffuel cfuel st = .done b e st') :
    2 ≤ st'.reads ∧
    b = (env.samples (st'.reads - 1)).current_location ∧
    e = (env.samples (st'.reads - 2)).current_location :=
  coarseLoop_done_char env id dir ffuel hops cfuel st b e st' h

/-- C4 (amended): when `calibrate_servo` returns a communication error and
the cancellation flag is still observed `true`, `main` surfaces the error
without issuing any further command: the final trace is exactly the trace
at the moment of the failure, so no best-effort stop happens on the
uncancelled error path. -/
theorem C4_no_stop_on_uncancelled_error (env : Env) (id : Nat)
    (cfuel ffuel : Nat)
    (herr : (calibrate env id cfuel ffuel).1 = .err)
    (hrun : env.running (calibrate env id cfuel ffuel).2.checks = true) :
    (runMain env id cfuel ffuel).1 = .err ∧
    (runMain env id cfuel ffuel).2.trace =
      (calibrate env id cfuel ffuel).2.trace := by
  rcases hres : calibrate env id cfuel ffuel with ⟨o, s⟩
  rw [hres] at herr hrun
  have ho : o = Outcome.err := herr
  have hruns : env.running s.checks = true := hrun
  simp only [runMain, hres, checkRunning, hruns, if_true]
  exact ⟨ho, by trivial⟩

/-- C7 (confirmed): if the cancellation flag is observed `false` at a
polling check the run actually reaches (all register operations
succeeding), the procedure takes the cancelled early-return path — which
in the source is `return Ok(())`, not an error — its trace contains no
register write at all (in particular no EEPROM write after the stop), and
the final command issued is the zero-speed stop. -/
theorem C7_cancel_stops_without_writes (env : Env) (id : Nat)
    (cfuel ffuel : Nat) (hops : ∀ k, env.opOk k = true)
    (hcancel : ∃ k, k < (calibrate env id cfuel ffuel).2.checks ∧
      env.running k = false) :
    (calibrate env id cfuel ffuel).1 = .cancelled ∧
    noWrites (calibrate env id cfuel ffuel).2.trace ∧
    (calibrate env id cfuel ffuel).2.trace.getLast? =
      some (.setSpeed id 0 1) := by
  have hinv := calibrate_inv env id cfuel ffuel hops
  obtain ⟨k, hk, hkf⟩ := hcancel
  rcases hres : calibrate env id cfuel ffuel with ⟨o, s⟩
  rw [hres] at hinv hk
  cases o with
  | ok =>
    have := hinv k (Nat.zero_le _) hk
    rw [this] at hkf
    exact absurd hkf (by simp)
  | fuelOut =>
    have := hinv k (Nat.zero_le _) hk
    rw [this] at hkf
    exact absurd hkf (by simp)
  | cancelled => exact ⟨rfl, hinv.1, hinv.2⟩
  | err => exact hinv.elim

/-- C8 (confirmed): while every sampled current stays at or below the
500 mA threshold, the flag stays `true` and every register operation
succeeds, the coarse sweep loop neither exits nor emits a stop command —
for every fuel bound it is still polling, so the only exits are a sample
strictly above the threshold, cancellation, or a communication error. -/
theorem C8_coarse_polls_below_threshold (env : Env) (id : Nat) (dir : Int)
    (ffuel : Nat) (hops : ∀ k, env.opOk k = true)
    (hrun : ∀ k, env.running k = true)
    (hcur : ∀ k, currentX200 (env.samples k) ≤ 200 * CURRENT_THRESHOLD) :
    ∀ cfuel st, ∃ st', coarseLoop env id dir ffuel cfuel st = .fuelOut st' ∧
      (noStops st.trace → noStops st'.trace) := by
  intro cfuel
  induction cfuel with
  | zero => exact fun st => ⟨st, rfl, fun h => h⟩
  | succ n ih =>
    intro st
    obtain ⟨st', heq, hns⟩ := ih
      { reads := st.reads + 1, checks := st.checks + 1, ops := st.ops + 1,
        trace := st.trace ++ [Cmd.readInfo id] ++ [Cmd.sleepMs 10] }
    refine ⟨st', ?_, ?_⟩
    · simp only [coarseLoop, checkRunning, hrun, if_true, readOp, hops, emit,
        doSleep]
      rw [if_neg (not_lt.mpr (hcur st.reads))]
      exact heq
    · intro h
      exact hns (noStops_append_one _ _ (noStops_append_one _ _ h rfl) rfl)

/-- C9 (confirmed): the fine re-approach loop stops only once a current
sample strictly exceeds twice the 500 mA threshold.  First part: if the
entering current and every sampled current stay at or below 1000 mA (flag
`true`, operations succeeding), the loop is still polling at every fuel
bound.  Second part: a normal exit means either the (stale) entering
current or some sample read during the loop was strictly above 1000 mA. -/
theorem C9_fine_requires_double_threshold (env : Env) (id : Nat)
    (hops : ∀ k, env.opOk k = true) (hrun : ∀ k, env.running k = true) :
    (∀ ffuel c st, c ≤ 200 * (CURRENT_THRESHOLD * 2) →
      (∀ k, currentX200 (env.samples k) ≤ 200 * (CURRENT_THRESHOLD * 2)) →
      ∃ st', fineLoop env id ffuel c st = .fuelOut st') ∧
    (∀ ffuel c st st', fineLoop env id ffuel c st = .out st' →
      200 * (CURRENT_THRESHOLD * 2) < c ∨
      ∃ k, st.reads ≤ k ∧ k < st'.reads ∧
        200 * (CURRENT_THRESHOLD * 2) < currentX200 (env.samples k)) := by
  constructor
  · intro ffuel
    induction ffuel with
    | zero => exact fun c st hc _ => ⟨st, by simp [fineLoop, hc]⟩
    | succ n ih =>
      intro c st hc hcur
      obtain ⟨st', heq⟩ := ih (currentX200 (env.samples st.reads))
        { reads := st.reads + 1, checks := st.checks + 1, ops := st.ops + 1,
          trace := st.trace ++ [Cmd.readInfo id] ++ [Cmd.sleepMs 10] }
        (hcur st.reads) hcur
      refine ⟨st', ?_⟩
      simp only [fineLoop, if_pos hc, checkRunning, hrun, if_true, readOp,
        hops, emit, doSleep]
      exact heq
  · intro ffuel
    induction ffuel with
    | zero =>
      intro c st st' h
      by_cases hc : c ≤ 200 * (CURRENT_THRESHOLD * 2) <;> simp [fineLoop, hc] at h
      exact Or.inl (not_le.mp hc)
    | succ n ih =>
      intro c st st' h
      by_cases hc : c ≤ 200 * (CURRENT_THRESHOLD * 2)
      · simp only [fineLoop, if_pos hc, checkRunning, hrun, if_true, readOp,
          hops, emit, doSleep] at h
        have hle := fineLoop_out_reads_le env id _ _ _ _ h
        simp at hle
        rcases ih _ _ _ h with hgt | ⟨k, hk₁, hk₂, hk₃⟩
        · exact Or.inr ⟨st.reads, le_refl _, by omega, hgt⟩
        · exact Or.inr ⟨k, by simp at hk₁; omega, hk₂, hk₃⟩
      · simp [fineLoop, hc] at h
        exact Or.inl (not_le.mp hc)

/-- C10 (confirmed): when the coarse sample that crosses the 500 mA
threshold already reports strictly more than 1000 mA, the fine loop body
runs zero iterations — the sweep completes with exactly two further reads
(the stop/settle read and the post-backoff read) and no further
cancellation check beyond the single coarse check. -/
theorem C10_stale_trigger_skips_fine (env : Env) (id : Nat) (dir : Int)
    (ffuel fuel : Nat) (st : St) (hops : ∀ k, env.opOk k = true)
    (hrun : env.running st.checks = true)
    (hc : 200 * (CURRENT_THRESHOLD * 2) < currentX200 (env.samples st.reads)) :
    ∃ st', coarseLoop env id dir ffuel (fuel + 1) st =
        .done (env.samples (st.reads + 2)).current_location
          (env.samples (st.reads + 1)).current_location st' ∧
      st'.reads = st.reads + 3 ∧ st'.checks = st.checks + 1 := by
  have h500 : currentX200 (env.samples st.reads) > 200 * CURRENT_THRESHOLD := by
    simp only [CURRENT_THRESHOLD] at hc ⊢
    omega
  simp only [coarseLoop, checkRunning, hrun, if_true, readOp, hops, emit,
    doSleep]
  rw [if_pos h500]
  simp only [pinpoint, regOp, doSleep, emit, hops, if_true]
  rw [fineLoop_out_of_gt env id ffuel _ _ hc]
  show ∃ st', afterFine env id dir _ = _ ∧ _
  obtain ⟨st', heq, hr, hcks, hw⟩ := afterFine_done env id dir
    { reads := st.reads + 1, checks := st.checks + 1,
      ops := st.ops + 1 + 1 + 1 + 1 + 1,
      trace := st.trace ++ [Cmd.readInfo id] ++ [Cmd.setSpeed id 0 dir] ++
        [Cmd.sleepMs 100] ++ [Cmd.setSpeed id CALIBRATION_SPEED (-dir)] ++
        [Cmd.sleepMs 100] ++ [Cmd.setSpeed id 0 (-dir)] ++ [Cmd.sleepMs 100] ++
        [Cmd.setSpeed id MIN_SPEED dir] } hops
  refine ⟨st', ?_, by simp at hr; omega, by simp at hcks; omega⟩
  rw [heq]

/-- C3 counterexample: a completed sweep in which the read after the
fine-approach stop/settle returns position 110 but the read after the
final backoff returns 90; the recorded boundary is 90, not 110, refuting
the claim that the boundary is the pre-backoff read. -/
theorem C3_counterexample :
    sweepBoundary (coarseLoop C3env 1 1 1 1 stInit) = some 90 ∧
    sweepExactPos (coarseLoop C3env 1 1 1 1 stInit) = some 110 ∧
    ¬ (90 : Int) = 110 := by
  refine ⟨?_, ?_, ?_⟩ <;> decide

/-- Witness for `C3_boundary_is_post_backoff_read` on the C3 environment. -/
theorem C3_witness :
    2 ≤ C3finalSt.reads ∧
    (90 : Int) = (C3env.samples (C3finalSt.reads - 1)).current_location ∧
    (110 : Int) = (C3env.samples (C3finalSt.reads - 2)).current_location :=
  C3_boundary_is_post_backoff_read C3env 1 1 1 1 stInit 90 110 C3finalSt
    (fun _ => rfl) (by decide)

/-- C4 counterexample: the first status read fails with the flag still
`true`; the run surfaces the error and the full trace contains no
zero-speed command at all — no best-effort stop was attempted. -/
theorem C4_counterexample :
    (runMain C4env 1 1 1).1 = .err ∧
    noStops (runMain C4env 1 1 1).2.trace := by
  refine ⟨?_, ?_⟩ <;> decide

/-- Witness for `C4_no_stop_on_uncancelled_error` on the C4 environment. -/
theorem C4_witness :
    (runMain C4env 1 1 1).1 = .err ∧
    (runMain C4env 1 1 1).2.trace = (calibrate C4env 1 1 1).2.trace :=
  C4_no_stop_on_uncancelled_error C4env 1 1 1 (by decide) (by decide)

/-- Witness for `C7_cancel_stops_without_writes` on the C7 environment. -/
theorem C7_witness :
    (calibrate C7env 1 1 1).1 = .cancelled ∧
    noWrites (calibrate C7env 1 1 1).2.trace ∧
    (calibrate C7env 1 1 1).2.trace.getLast? = some (.setSpeed 1 0 1) :=
  C7_cancel_stops_without_writes C7env 1 1 1 (fun _ => rfl)
    ⟨0, by decide, rfl⟩

/-- Witness for `C8_coarse_polls_below_threshold` on the C8 environment:
with every sample at 498.94 mA the sweep is still polling after 3
iterations (and, by the theorem, after any number). -/
theorem C8_witness :
    ∃ st', coarseLoop C8env 1 1 1 3 stInit = .fuelOut st' ∧
      (noStops stInit.trace → noStops st'.trace) :=
  C8_coarse_polls_below_threshold C8env 1 1 1 (fun _ => rfl) (fun _ => rfl)
    (fun _ => by simp only [C8env]; decide) 3 stInit

/-- Witness for `C9_fine_requires_double_threshold` on the C9 environment:
entering at 585 mA (scaled: 117000) with every sample at 999.96 mA, the
fine loop is still polling after 2 iterations. -/
theorem C9_witness :
    ∃ st', fineLoop C9env 1 2 117000 stInit = .fuelOut st' :=
  (C9_fine_requires_double_threshold C9env 1 (fun _ => rfl) (fun _ => rfl)).1
    2 117000 stInit (by decide) (fun _ => by simp only [C9env]; decide)

/-- Witness for `C10_stale_trigger_skips_fine` on the C10 environment. -/
theorem C10_witness :
    ∃ st', coarseLoop C10env 1 1 1 (0 + 1) stInit =
        .done (C10env.samples (stInit.reads + 2)).current_location
          (C10env.samples (stInit.reads + 1)).current_location st' ∧
      st'.reads = stInit.reads + 3 ∧ st'.checks = stInit.checks + 1 :=
  C10_stale_trigger_skips_fine C10env 1 1 1 0 stInit (fun _ => rfl) rfl
    (by decide)

end Calib

